import Mathlib

/-!
Verification development for the hemmelig relay-chat repository.

Bytes are modelled as natural numbers (values < 256 where it matters, with
explicit `% 256` / `% 2 ^ 32` at the points where the Go code converts),
byte strings as `List Nat`, fallible operations as `Except String`.
External library primitives that the repository calls but whose code is not
part of the repository (AES-GCM from crypto/cipher, X25519 from
golang.org/x/crypto/curve25519) are modelled from the specification's
description of their behaviour; everything the repository's own code does
(framing, length checks, nonce handling, routing, admission) is translated
from the source files.
-/

namespace Hemmelig

/-- Little-endian encoding of a natural number into `n` bytes. -/
def encodeLE : Nat → Nat → List Nat
  | 0, _ => []
  | n + 1, x => (x % 256) :: encodeLE n (x / 256)

/-- Little-endian decoding of a byte list into a natural number. -/
def decodeLE : List Nat → Nat
  | [] => 0
  | b :: bs => b + 256 * decodeLE bs

/-- Big-endian 32-bit length encoding, as Go's binary.BigEndian.PutUint32. -/
def u32be (x : Nat) : List Nat :=
  [x / 2 ^ 24 % 256, x / 2 ^ 16 % 256, x / 2 ^ 8 % 256, x % 256]

/-- Reading a big-endian 32-bit value from the head of a stream, as Go's
binary.Read with binary.BigEndian into a uint32; fails when fewer than four
bytes are available. -/
def readU32be : List Nat → Except String (Nat × List Nat)
  | b0 :: b1 :: b2 :: b3 :: rest =>
      .ok (b0 * 2 ^ 24 + b1 * 2 ^ 16 + b2 * 2 ^ 8 + b3, rest)
  | _ => .error "failed to read length"

/-! ## AEAD layer (src/internal/crypto/crypto.go and src/unnamed/part_007)

The repository calls Go's crypto/aes and crypto/cipher GCM. That library
code is not part of the repository, so its interior is modelled from the
spec (section 4.2): `encrypt(plaintext, key) -> nonce .. ciphertext .. tag`,
where the ciphertext is the plaintext masked by a key-and-nonce-dependent
keystream and the tag binds key, nonce and ciphertext so that decryption
under a different key, a tampered ciphertext or a truncation fails. The tag
is modelled as 32 bytes, the key's bytes masked by a pad derived from nonce
and ciphertext, which realises the spec's wrong-key failure. Everything the
repository's own `Encrypt`/`Decrypt` wrappers do (key-size gate, random
nonce prefix, nonce split, short-input check) is translated from source. -/

/-- Modelled from the spec: one keystream byte of the AEAD cipher, a
function of key, nonce and position (crypto/cipher GCM's CTR keystream is
not in src/). -/
def ksByte (key nonce : List Nat) (i : Nat) : Nat :=
  (key.foldl (· + ·) 0 + nonce.foldl (· + ·) 0 * 7 + i * 13) % 256

/-- Mask a byte string with the keystream starting at position `i`;
applying it twice restores the input (CTR-style xor masking). -/
def xorKeystream (key nonce : List Nat) : List Nat → Nat → List Nat
  | [], _ => []
  | b :: bs, i => (b ^^^ ksByte key nonce i) :: xorKeystream key nonce bs (i + 1)

/-- Modelled from the spec: one byte of the tag pad, a function of nonce,
ciphertext and position. -/
def tagPadByte (nonce ct : List Nat) (i : Nat) : Nat :=
  (nonce.foldl (· + ·) 0 * 31 + ct.foldl (fun a b => (a * 33 + b) % 65536) 0 + i * 7) % 256

/-- Modelled from the spec: the 32-byte authentication tag, binding the key
(masked bytewise by the pad), the nonce and the ciphertext. -/
def gcmTag (key nonce ct : List Nat) : List Nat :=
  List.zipWith (· ^^^ ·) key ((List.range 32).map (tagPadByte nonce ct))

/-- Modelled from the spec: gcm.Seal — ciphertext followed by the tag. -/
def gcmSeal (key nonce plaintext : List Nat) : List Nat :=
  let ct := xorKeystream key nonce plaintext 0
  ct ++ gcmTag key nonce ct

/-- Modelled from the spec: gcm.Open — split off the trailing tag,
recompute it, and unmask the ciphertext on success. -/
def gcmOpen (key nonce body : List Nat) : Except String (List Nat) :=
  if body.length < 32 then .error "cipher: message authentication failed"
  else
    let n := body.length - 32
    let ct := body.take n
    let tag := body.drop n
    if tag = gcmTag key nonce ct then .ok (xorKeystream key nonce ct 0)
    else .error "cipher: message authentication failed"

/-- Go's aes.NewCipher succeeds exactly for 16-, 24- or 32-byte keys. -/
def aesKeyOk (key : List Nat) : Bool :=
  key.length == 16 || key.length == 24 || key.length == 32

/-- GCM nonce size used throughout (gcm.NonceSize()). -/
def nonceSize : Nat := 12

/-- Encrypt from src/internal/crypto/crypto.go (identical in
src/unnamed/part_007): key-size gate, then gcm.Seal(nonce, nonce,
plaintext, nil), i.e. the random nonce followed by the sealed body. The
random nonce drawn from crypto/rand is an explicit parameter. -/
def Encrypt (plaintext key nonce : List Nat) : Except String (List Nat) :=
  if aesKeyOk key then .ok (nonce ++ gcmSeal key nonce plaintext)
  else .error "crypto/aes: invalid key size"

/-- Decrypt from src/internal/crypto/crypto.go: key-size gate, reject
inputs shorter than the nonce, split the leading nonce, gcm.Open. -/
def Decrypt (ciphertext key : List Nat) : Except String (List Nat) :=
  if aesKeyOk key then
    if ciphertext.length < nonceSize then .error "ciphertext too short"
    else gcmOpen key (ciphertext.take nonceSize) (ciphertext.drop nonceSize)
  else .error "crypto/aes: invalid key size"

/-- Decrypt from src/unnamed/part_007 (the jot client variant): same
structure, but the short-input error is io.ErrUnexpectedEOF. -/
def DecryptJot (ciphertext key : List Nat) : Except String (List Nat) :=
  if aesKeyOk key then
    if ciphertext.length < nonceSize then .error "unexpected EOF"
    else gcmOpen key (ciphertext.take nonceSize) (ciphertext.drop nonceSize)
  else .error "crypto/aes: invalid key size"

/-- Discriminator for Except results. -/
def isOkE {α : Type} (e : Except String α) : Bool :=
  match e with
  | .ok _ => true
  | .error _ => false

/-! ## Handshake (src/internal/crypto/crypto.go)

`PerformKeyExchange` and `readTLVFromConn` are translated from source.
The curve arithmetic (golang.org/x/crypto/curve25519) is not in src/, so
scalar-base multiplication and the Diffie-Hellman operation are modelled
from the spec: ECDH over Curve25519 producing a 32-byte shared secret,
i.e. commutative scalar action on the group, here realised as
multiplication modulo the curve prime, carried in 32 little-endian bytes
exactly as the wire format requires. -/

/-- Message-type byte constants from src/internal/protocol/protocol.go. -/
def TypeNickname : Nat := 0x00

/-- TEXT message type byte. -/
def TypeText : Nat := 0x01

/-- FILE_REJECT message type byte. -/
def TypeFileReject : Nat := 0x04

/-- KEY_EXCHANGE message type byte. -/
def TypePublicKeyExchange : Nat := 0x0A

/-- Exact payload size required for key-exchange frames (crypto.go). -/
def maxPublicKeySize : Nat := 32

/-- Frame payload cap, 10 MiB (crypto.go maxMessageSize). -/
def maxMessageSize : Nat := 10 * 1024 * 1024

/-- Modelled from the spec: the Curve25519 prime 2^255 - 19. -/
def p25519 : Nat := 2 ^ 255 - 19

/-- Modelled from the spec: curve25519.ScalarBaseMult — the public point
derived from a private scalar, as 32 little-endian bytes (base point 9). -/
def scalarBaseMult (priv : List Nat) : List Nat :=
  encodeLE 32 (decodeLE priv * 9 % p25519)

/-- Modelled from the spec: curve25519.X25519 — the Diffie-Hellman value of
a private scalar and a peer public point, as 32 little-endian bytes. -/
def x25519 (priv pub : List Nat) : Except String (List Nat) :=
  .ok (encodeLE 32 (decodeLE priv * decodeLE pub % p25519))

/-- readTLVFromConn from src/internal/crypto/crypto.go: read the type byte,
the big-endian u32 length, run the type-specific length checks, and only
then read (allocate) the payload. Returns the parsed frame and the rest of
the stream. -/
def readTLVFromConn (input : List Nat) : Except String (Nat × List Nat × List Nat) :=
  match input with
  | [] => .error "readTLV: failed to read msgType"
  | msgType :: rest =>
    match readU32be rest with
    | .error _ => .error "readTLV: failed to read length"
    | .ok (len, rest2) =>
      if msgType == TypePublicKeyExchange then
        if len != maxPublicKeySize then
          .error "readTLV: public key exchange payload must be 32 bytes"
        else if rest2.length < len then .error "readTLV: failed to read payload"
        else .ok (msgType, rest2.take len, rest2.drop len)
      else
        if len > maxMessageSize then .error "readTLV: message length too large"
        else if len == 0 && msgType != TypeFileReject then
          .error "readTLV: received zero length payload for message type that requires data"
        else if rest2.length < len then .error "readTLV: failed to read payload"
        else .ok (msgType, rest2.take len, rest2.drop len)

/-- The TLV frame a party writes for its public key: type byte, big-endian
u32 length, payload (crypto.go, both handshake branches). -/
def kexFrame (publicKey : List Nat) : List Nat :=
  TypePublicKeyExchange :: u32be (publicKey.length % 2 ^ 32) ++ publicKey

/-- PerformKeyExchange from src/internal/crypto/crypto.go. The private
scalar drawn from crypto/rand is an explicit parameter; `input` is the byte
stream this party reads from the connection. The result carries the shared
key, this party's public key, the peer public key, and the bytes this party
wrote to the connection. The initiator writes its frame before reading; the
responder reads first and writes only after a successful read. -/
def PerformKeyExchange (isInitiator : Bool) (priv input : List Nat) :
    Except String (List Nat × List Nat × List Nat × List Nat) :=
  let publicKey := scalarBaseMult priv
  let fullMsg := kexFrame publicKey
  if isInitiator then
    match readTLVFromConn input with
    | .error e => .error e
    | .ok (recvMsgType, recvPayload, _) =>
      if recvMsgType != TypePublicKeyExchange then
        .error "initiator expected TypePublicKeyExchange"
      else if recvPayload.length != 32 then
        .error "initiator received peer public key of wrong size"
      else
        match x25519 priv recvPayload with
        | .error _ => .error "failed to compute shared key"
        | .ok sharedKeyVal => .ok (sharedKeyVal, publicKey, recvPayload, fullMsg)
  else
    match readTLVFromConn input with
    | .error e => .error e
    | .ok (recvMsgType, recvPayload, _) =>
      if recvMsgType != TypePublicKeyExchange then
        .error "responder expected TypePublicKeyExchange"
      else if recvPayload.length != 32 then
        .error "responder received peer public key of wrong size"
      else
        match x25519 priv recvPayload with
        | .error _ => .error "failed to compute shared key"
        | .ok sharedKeyVal => .ok (sharedKeyVal, publicKey, recvPayload, fullMsg)

/-! ## Two-party wire framing (src/unnamed/part_000) -/

/-- SendData from src/unnamed/part_000: key-exchange payloads go out raw,
everything else is encrypted (error when no shared key); then one frame of
type byte, big-endian u32 length (Go's uint32 conversion truncates), and
payload. There is no payload-size check. The random nonce used by the
encryption is an explicit parameter. -/
def SendData (sharedKey : Option (List Nat)) (msgType : Nat) (data nonce : List Nat) :
    Except String (List Nat) :=
  let payloadResult : Except String (List Nat) :=
    if msgType == TypePublicKeyExchange then .ok data
    else
      match sharedKey with
      | none => .error "shared key is nil, cannot encrypt non-PublicKeyExchange message"
      | some k => Encrypt data k nonce
  match payloadResult with
  | .error e => .error e
  | .ok payloadToSend =>
      .ok (msgType :: u32be (payloadToSend.length % 2 ^ 32) ++ payloadToSend)

/-- The frame read performed each iteration by ListenForMessages
(src/unnamed/part_000, lines 40-63): one type byte, a big-endian u32
length, then `length` payload bytes are read into a fresh buffer — with no
cap check on the length header. -/
def readLoopFrame (input : List Nat) : Except String (Nat × List Nat × List Nat) :=
  match input with
  | [] => .error "connection read error"
  | msgType :: rest =>
    match readU32be rest with
    | .error _ => .error "failed to read length"
    | .ok (len, rest2) =>
      if rest2.length < len then .error "failed to read message body"
      else .ok (msgType, rest2.take len, rest2.drop len)

/-! ## Relay server (src/cmd/relay-server/main.go)

JSON objects are modelled as association lists from field names to values;
non-string JSON values the router never inspects are abstracted. A Go map
assignment is `assocSet` (replace if present, append otherwise). -/

/-- A JSON value as far as the relay router inspects it: a string, an
opaque byte payload, or anything else (abstracted). -/
inductive JVal where
  | str (s : String)
  | bytes (bs : List Nat)
  | other (tag : Nat)
deriving DecidableEq

/-- A decoded JSON object (Go's map from string to interface). -/
abbrev JsonObj := List (String × JVal)

/-- Go map lookup m[k]: the value bound to the first occurrence of the
key, none when absent. -/
def mapGet {α : Type} (l : List (String × α)) (k : String) : Option α :=
  match l with
  | [] => none
  | p :: ps => if p.1 = k then some p.2 else mapGet ps k

/-- Go map assignment m[k] = v: replace the binding when the key is
present, add it otherwise. -/
def assocSet {α : Type} (l : List (String × α)) (k : String) (v : α) : List (String × α) :=
  if (mapGet l k).isSome then
    l.map (fun p => if p.1 = k then (k, v) else p)
  else l ++ [(k, v)]

/-- The six directed message types of RelayServer.relayData. -/
def directedTypes : List String :=
  ["message", "file_offer", "file_accept", "file_reject", "file_chunk", "file_done"]

/-- The type test of relayData: msg["type"] equals one of the directed
type strings (a missing or non-string type field compares unequal). -/
def isDirected (msg : JsonObj) : Bool :=
  match mapGet msg "type" with
  | some (JVal.str t) => directedTypes.contains t
  | _ => false

/-- The sender stamp of relayData: msg["sender"] = client.id. -/
def stampSender (msg : JsonObj) (senderId : String) : JsonObj :=
  assocSet msg "sender" (JVal.str senderId)

/-- One routing step of RelayServer.relayData (lines 257-294): stamp
msg["sender"] with the sending member's id; for a directed type deliver to
the recipient member only when the recipient field is a string naming a
current member; otherwise broadcast to every member except the sender. The
result lists (destination member id, delivered object). -/
def routeMessage (clients : List String) (senderId : String) (msg : JsonObj) :
    List (String × JsonObj) :=
  if isDirected (stampSender msg senderId) then
    match mapGet (stampSender msg senderId) "recipient" with
    | some (JVal.str r) =>
        if clients.contains r then [(r, stampSender msg senderId)] else []
    | _ => []
  else
    (clients.filter (fun c => c != senderId)).map (fun c => (c, stampSender msg senderId))

/-- One item arriving at relayData's read loop: a newline-terminated line
tagged with its json.Unmarshal outcome, or a read failure (EOF, inactivity
deadline, or a failed SetReadDeadline), which makes the loop return. -/
inductive InEvent where
  | line (parsed : Option JsonObj)
  | readErr
deriving DecidableEq

/-- The read loop of RelayServer.relayData over a stream of incoming
events, for a fixed view of the session's member ids: an unparsable line is
logged and skipped (`continue`), a parsed line is routed, a read failure
ends the loop (after which the deferred removeClient tears the client
down). Returns the deliveries made and whether the loop returned (true)
or is still reading (false). -/
def relayDataRun (clients : List String) (senderId : String) :
    List InEvent → List (String × JsonObj) × Bool
  | [] => ([], false)
  | InEvent.readErr :: _ => ([], true)
  | InEvent.line none :: rest => relayDataRun clients senderId rest
  | InEvent.line (some m) :: rest =>
      let r := relayDataRun clients senderId rest
      (routeMessage clients senderId m ++ r.1, r.2)

/-- Client from src/cmd/relay-server/main.go. -/
structure Client where
  id : String
  nickname : String
  publicKey : List Nat
deriving DecidableEq

/-- Session from src/cmd/relay-server/main.go. -/
structure Session where
  ID : String
  OwnerID : String
  Clients : List (String × Client)
  Banned : List String
deriving DecidableEq

/-- RelayServer from src/cmd/relay-server/main.go. -/
structure RelayServer where
  sessions : List (String × Session)
  maxDataRelayed : Int
deriving DecidableEq

/-- NewRelayServer from src/cmd/relay-server/main.go. -/
def NewRelayServer (maxDataRelayed : Int) : RelayServer :=
  { sessions := [], maxDataRelayed := maxDataRelayed }

/-- RelayServer.relayData for one client of one session: the loop reads
lines and routes them among the session's members. Exactly as in the
source, the loop consults nothing of the server state — in particular not
`s.maxDataRelayed` — so the deliveries depend only on the member view and
the incoming stream. -/
def relayData (s : RelayServer) (session : Session) (senderId : String)
    (events : List InEvent) : List (String × JsonObj) × Bool :=
  relayDataRun (session.Clients.map Prod.fst) senderId events

/-- ClientMessage from src/cmd/relay-server/main.go (the opening JSON
command line, already unmarshalled). -/
structure ClientMessage where
  Command : String
  SessionID : String
  Nickname : String
  PublicKey : List Nat
deriving DecidableEq

/-- A JSON notification line the server writes to a session member. -/
inductive Notify where
  | userJoined (userID nickname : String) (publicKey : List Nat)
  | publicKeyInfo (userID nickname : String) (publicKey : List Nat)
  | userLeft (userID : String)
deriving DecidableEq

/-- One line written back on the connecting client's own connection. -/
inductive Wire where
  | textLine (s : String)
  | note (n : Notify)
  | sessionCreated (sessionID : String)
deriving DecidableEq

/-- The observable outcome of handleConnection's command dispatch. -/
structure HandleResult where
  server : RelayServer
  connWrites : List Wire
  memberNotifies : List (String × Notify)
  connClosed : Bool
  startedRelay : Bool
deriving DecidableEq

/-- The command dispatch of RelayServer.handleConnection (lines 116-226),
after the opening line has been read and unmarshalled. The freshly minted
client UUID and the session UUID minted for an id-less CREATE are explicit
parameters. connWrites lists, in order, what is written back on this
connection; memberNotifies lists the user_joined lines written to the
session's existing members. -/
def handleCommand (s : RelayServer) (clientID genSessionID : String)
    (msg : ClientMessage) : HandleResult :=
  let client : Client :=
    { id := clientID, nickname := msg.Nickname, publicKey := msg.PublicKey }
  if msg.Command = "CREATE" then
    if msg.SessionID ≠ "" ∧ (mapGet s.sessions msg.SessionID).isSome then
      { server := s, connWrites := [Wire.textLine "Error: Session ID already exists\n"],
        memberNotifies := [], connClosed := true, startedRelay := false }
    else
      let sessionID := if msg.SessionID = "" then genSessionID else msg.SessionID
      let session : Session :=
        { ID := sessionID, OwnerID := clientID, Clients := [(clientID, client)], Banned := [] }
      { server := { s with sessions := assocSet s.sessions sessionID session },
        connWrites := [Wire.sessionCreated sessionID],
        memberNotifies := [], connClosed := false, startedRelay := true }
  else if msg.Command = "JOIN" then
    match mapGet s.sessions msg.SessionID with
    | none =>
      { server := s, connWrites := [Wire.textLine "Error: Session not found\n"],
        memberNotifies := [], connClosed := true, startedRelay := false }
    | some session =>
      if session.Clients.length ≥ 256 then
        { server := s, connWrites := [Wire.textLine "Error: Session is full\n"],
          memberNotifies := [], connClosed := true, startedRelay := false }
      else if clientID ∈ session.Banned then
        { server := s,
          connWrites := [Wire.textLine "Error: You are banned from this session\n"],
          memberNotifies := [], connClosed := true, startedRelay := false }
      else
        let newSession := { session with Clients := assocSet session.Clients clientID client }
        { server := { s with sessions := assocSet s.sessions msg.SessionID newSession },
          connWrites :=
            (session.Clients.map fun p =>
              Wire.note (Notify.publicKeyInfo p.2.id p.2.nickname p.2.publicKey)) ++
            [Wire.textLine ("Joined session: " ++ session.ID ++ "\n")],
          memberNotifies :=
            session.Clients.map fun p =>
              (p.1, Notify.userJoined clientID msg.Nickname msg.PublicKey),
          connClosed := false, startedRelay := true }
  else
    { server := s, connWrites := [Wire.textLine "Error: Unknown command\n"],
      memberNotifies := [], connClosed := true, startedRelay := false }

/-- A concrete session holding 256 members, for witnessing the member cap. -/
def fullSession256 : Session :=
  { ID := "sid", OwnerID := "o",
    Clients := (List.range 256).map fun i =>
      (toString i, { id := toString i, nickname := "", publicKey := [] }),
    Banned := [] }

/-- A concrete server holding the full session. -/
def serverWithFullSession : RelayServer :=
  { sessions := [("sid", fullSession256)], maxDataRelayed := 50 }

/-! ## File transfer (src/internal/filetransfer/filetransfer.go) -/

/-- FileMetadata from src/internal/protocol/protocol.go. -/
structure FileMetadata where
  FileName : String
  FileSize : Int
  OriginalPath : String
  SenderID : String
deriving DecidableEq

/-- FileMetadata.ToJSON, modelled as an executable byte encoding of the
fields (encoding/json is not in src/). -/
def fileMetadataToJSON (m : FileMetadata) : List Nat :=
  (toString m.FileSize).toList.map Char.toNat ++
    0 :: m.FileName.toList.map Char.toNat ++
    0 :: m.OriginalPath.toList.map Char.toNat

/-- os.FileInfo as far as RequestSendFile uses it. -/
structure StatResult where
  size : Int
deriving DecidableEq

/-- An event RequestSendFile emits to its MessageSender sink. The failure
reason string (fmt.Sprintf with floating-point MB values) is abstracted to
the two sizes it formats. -/
inductive FTEvent where
  | errorEvent
  | offerFailed (fileSize maxFileSize : Int)
deriving DecidableEq

/-! Go's path/filepath.Base on unix: empty path gives ".", otherwise strip
trailing separators, take everything after the last separator, and if that
is empty (the path was all separators) return a single separator. -/

/-- filepath.Base (unix), on character lists. -/
def goFilepathBase (path : List Char) : List Char :=
  if path = [] then ['.']
  else
    let trimmed := (path.reverse.dropWhile (fun c => c == '/')).reverse
    let basePart := (trimmed.reverse.takeWhile (fun c => c != '/')).reverse
    if basePart = [] then ['/'] else basePart

/-- filepath.Base on strings. -/
def goFilepathBaseS (s : String) : String := String.mk (goFilepathBase s.toList)

/-- RequestSendFile from src/internal/filetransfer/filetransfer.go. The
file-system effects are inputs (open outcome, stat outcome); the result is
the list of sink events emitted and the list of JSON messages written to
the connection. The size gate fires before the FILE_OFFER message is built
or sent. -/
def RequestSendFile (openResult : Except String Unit)
    (statResult : Except String StatResult) (sharedKey nonce : List Nat)
    (filePath : String) (maxFileSize : Int) (recipientID : String) :
    List FTEvent × List JsonObj :=
  match openResult with
  | .error _ => ([FTEvent.errorEvent], [])
  | .ok _ =>
    match statResult with
    | .error _ => ([FTEvent.errorEvent], [])
    | .ok info =>
      if info.size > maxFileSize then
        ([FTEvent.offerFailed info.size maxFileSize], [])
      else
        let meta : FileMetadata :=
          { FileName := goFilepathBaseS filePath, FileSize := info.size,
            OriginalPath := filePath, SenderID := "" }
        match Encrypt (fileMetadataToJSON meta) sharedKey nonce with
        | .error _ => ([FTEvent.errorEvent], [])
        | .ok encryptedMeta =>
          ([], [[("type", JVal.str "file_offer"), ("recipient", JVal.str recipientID),
                 ("metadata", JVal.bytes encryptedMeta)]])

/-- The path handed to os.Create when the user accepts an incoming file
offer (src/internal/ui/model.go line 334): filepath.Base of the offered
file name — never the sender-supplied path itself. -/
def acceptOfferCreatePath (offer : FileMetadata) : String :=
  goFilepathBaseS offer.FileName

/-! ## Helper lemmas -/

theorem length_encodeLE (n x : Nat) : (encodeLE n x).length = n := by
  induction n generalizing x with
  | zero => rfl
  | succ n ih => simp [encodeLE, ih]

theorem decodeLE_encodeLE (n x : Nat) : decodeLE (encodeLE n x) = x % 256 ^ n := by
  induction n generalizing x with
  | zero => simp [encodeLE, decodeLE, Nat.mod_one]
  | succ n ih =>
    rw [encodeLE, decodeLE, ih, pow_succ, mul_comm (256 ^ n) 256, Nat.mod_mul]

theorem length_xorKeystream (key nonce : List Nat) (l : List Nat) (i : Nat) :
    (xorKeystream key nonce l i).length = l.length := by
  induction l generalizing i with
  | nil => rfl
  | cons b bs ih => simp [xorKeystream, ih]

theorem xorKeystream_xorKeystream (key nonce : List Nat) (l : List Nat) (i : Nat) :
    xorKeystream key nonce (xorKeystream key nonce l i) i = l := by
  induction l generalizing i with
  | nil => rfl
  | cons b bs ih =>
    simp only [xorKeystream, ih]
    rw [Nat.xor_assoc, Nat.xor_self, Nat.xor_zero]

theorem length_gcmTag (key nonce ct : List Nat) (h : key.length = 32) :
    (gcmTag key nonce ct).length = 32 := by
  simp [gcmTag, h]

theorem zipWith_xor_inj (pad : List Nat) :
    ∀ k k2 : List Nat, k.length = k2.length → k.length ≤ pad.length →
      List.zipWith (· ^^^ ·) k pad = List.zipWith (· ^^^ ·) k2 pad → k = k2 := by
  induction pad with
  | nil =>
    intro k k2 hlen hle _
    have h0 : k.length = 0 := Nat.le_zero.mp hle
    have h1 : k = [] := List.eq_nil_of_length_eq_zero h0
    have h2 : k2 = [] := List.eq_nil_of_length_eq_zero (by omega)
    rw [h1, h2]
  | cons p ps ih =>
    intro k k2 hlen hle hz
    cases k with
    | nil =>
      cases k2 with
      | nil => rfl
      | cons b bs => simp at hlen
    | cons a as =>
      cases k2 with
      | nil => simp at hlen
      | cons b bs =>
        simp only [List.zipWith, List.cons.injEq] at hz
        have hab : a = b := by
          have := congrArg (fun x => x ^^^ p) hz.1
          simpa [Nat.xor_assoc] using this
        have : as = bs := by
          apply ih as bs
          · simpa using hlen
          · simpa using Nat.le_of_succ_le_succ hle
          · exact hz.2
        rw [hab, this]

theorem gcmTag_inj (nonce ct : List Nat) (k k2 : List Nat)
    (hk : k.length = 32) (hk2 : k2.length = 32)
    (h : gcmTag k nonce ct = gcmTag k2 nonce ct) : k = k2 := by
  apply zipWith_xor_inj ((List.range 32).map (tagPadByte nonce ct)) k k2
  · rw [hk, hk2]
  · simp [hk]
  · exact h

theorem gcmOpen_append (key nonce ct tag : List Nat) (ht : tag.length = 32) :
    gcmOpen key nonce (ct ++ tag) =
      if tag = gcmTag key nonce ct then .ok (xorKeystream key nonce ct 0)
      else .error "cipher: message authentication failed" := by
  have hlen : (ct ++ tag).length = ct.length + 32 := by simp [ht]
  rw [gcmOpen]
  rw [if_neg (by omega)]
  have hn : (ct ++ tag).length - 32 = ct.length := by omega
  simp only [hn]
  rw [List.take_left, List.drop_left]

theorem gcmOpen_gcmSeal (key nonce P : List Nat) (hk : key.length = 32) :
    gcmOpen key nonce (gcmSeal key nonce P) = .ok P := by
  simp only [gcmSeal]
  rw [gcmOpen_append key nonce _ _ (length_gcmTag _ _ _ hk)]
  rw [if_pos rfl, xorKeystream_xorKeystream]

theorem gcmOpen_gcmSeal_wrong_key (key k2 nonce P : List Nat)
    (hk : key.length = 32) (hk2 : k2.length = 32) (hne : k2 ≠ key) :
    isOkE (gcmOpen k2 nonce (gcmSeal key nonce P)) = false := by
  simp only [gcmSeal]
  rw [gcmOpen_append k2 nonce _ _ (length_gcmTag _ _ _ hk)]
  rw [if_neg ?_, isOkE]
  intro heq
  exact hne (gcmTag_inj nonce (xorKeystream key nonce P 0) k2 key hk2 hk heq.symm)

theorem length_scalarBaseMult (priv : List Nat) : (scalarBaseMult priv).length = 32 :=
  length_encodeLE 32 _

theorem readTLV_kexFrame (pub : List Nat) (h : pub.length = 32) :
    readTLVFromConn (kexFrame pub) = .ok (TypePublicKeyExchange, pub, []) := by
  have hframe : kexFrame pub = TypePublicKeyExchange :: 0 :: 0 :: 0 :: 32 :: pub := by
    rw [kexFrame, h]
    rfl
  rw [hframe]
  simp only [readTLVFromConn, readU32be, TypePublicKeyExchange, maxPublicKeySize]
  norm_num
  rw [if_neg (by omega), ← h, List.take_length, List.drop_length]

theorem mul_mod_mod (a x p : Nat) : a * (x % p) % p = a * x % p := by
  conv_rhs => rw [Nat.mul_mod]
  conv_lhs => rw [Nat.mul_mod]
  rw [Nat.mod_mod_of_dvd x dvd_rfl]

theorem dh_comm (privA privB : List Nat) :
    decodeLE privA * decodeLE (scalarBaseMult privB) % p25519 =
      decodeLE privB * decodeLE (scalarBaseMult privA) % p25519 := by
  have hp : p25519 < 256 ^ 32 := by norm_num [p25519]
  have hp0 : 0 < p25519 := by norm_num [p25519]
  have hb : ∀ l : List Nat, decodeLE (scalarBaseMult l) = decodeLE l * 9 % p25519 := by
    intro l
    rw [scalarBaseMult, decodeLE_encodeLE]
    exact Nat.mod_eq_of_lt (lt_trans (Nat.mod_lt _ hp0) hp)
  rw [hb, hb, mul_mod_mod, mul_mod_mod]
  rw [show decodeLE privA * (decodeLE privB * 9) = decodeLE privB * (decodeLE privA * 9) by ring]

theorem mapGet_mapReplace {α : Type} (l : List (String × α)) (k : String) (v : α)
    (h : (mapGet l k).isSome) :
    mapGet (l.map (fun p => if p.1 = k then (k, v) else p)) k = some v := by
  induction l with
  | nil => simp [mapGet] at h
  | cons p ps ih =>
    by_cases hp : p.1 = k
    · simp [mapGet, hp]
    · simp only [List.map, if_neg hp]
      rw [mapGet, if_neg hp]
      apply ih
      rw [mapGet, if_neg hp] at h
      exact h

theorem mapGet_append_single {α : Type} (l : List (String × α)) (k : String) (v : α)
    (h : mapGet l k = none) :
    mapGet (l ++ [(k, v)]) k = some v := by
  induction l with
  | nil => simp [mapGet]
  | cons p ps ih =>
    rw [mapGet] at h
    by_cases hp : p.1 = k
    · rw [if_pos hp] at h
      cases h
    · rw [if_neg hp] at h
      rw [List.cons_append, mapGet, if_neg hp]
      exact ih h

theorem mapGet_assocSet_self {α : Type} (l : List (String × α)) (k : String) (v : α) :
    mapGet (assocSet l k v) k = some v := by
  rw [assocSet]
  by_cases h : (mapGet l k).isSome
  · rw [if_pos h]
    exact mapGet_mapReplace l k v h
  · rw [if_neg h]
    apply mapGet_append_single
    cases hg : mapGet l k with
    | none => rfl
    | some w => rw [hg] at h; simp at h

theorem mapGet_assocSet_ne {α : Type} (l : List (String × α)) (k k2 : String) (v : α)
    (hne : k2 ≠ k) : mapGet (assocSet l k v) k2 = mapGet l k2 := by
  rw [assocSet]
  by_cases h : (mapGet l k).isSome
  · rw [if_pos h]
    clear h
    induction l with
    | nil => rfl
    | cons p ps ih =>
      by_cases hp : p.1 = k
      · simp only [List.map, if_pos hp]
        rw [mapGet, mapGet, if_neg (fun hc => hne hc.symm), if_neg (by rw [hp]; exact fun hc => hne hc.symm)]
        exact ih
      · simp only [List.map, if_neg hp]
        rw [mapGet, mapGet]
        by_cases hp2 : p.1 = k2
        · rw [if_pos hp2, if_pos hp2]
        · rw [if_neg hp2, if_neg hp2]
          exact ih
  · rw [if_neg h]
    induction l with
    | nil =>
      have hkk : ¬(k = k2) := fun hc => hne hc.symm
      simp [mapGet, hkk]
    | cons p ps ih =>
      rw [List.cons_append, mapGet, mapGet]
      by_cases hp2 : p.1 = k2
      · rw [if_pos hp2, if_pos hp2]
      · rw [if_neg hp2, if_neg hp2]
        apply ih
        intro hs
        apply h
        rw [mapGet]
        by_cases hp : p.1 = k
        · rw [if_pos hp]
          rfl
        · rw [if_neg hp]
          exact hs

theorem mem_assocSet {α : Type} (l : List (String × α)) (k : String) (v : α)
    (p : String × α) (hp : p ∈ assocSet l k v) : p.2 = v ∨ p ∈ l := by
  rw [assocSet] at hp
  by_cases h : (mapGet l k).isSome
  · rw [if_pos h] at hp
    rw [List.mem_map] at hp
    obtain ⟨q, hq, hqp⟩ := hp
    by_cases hqk : q.1 = k
    · rw [if_pos hqk] at hqp
      left
      rw [← hqp]
    · rw [if_neg hqk] at hqp
      right
      rw [← hqp]
      exact hq
  · rw [if_neg h] at hp
    rw [List.mem_append] at hp
    cases hp with
    | inl hl => exact Or.inr hl
    | inr hr =>
      left
      rw [List.mem_singleton] at hr
      rw [hr]

theorem length_assocSet_le {α : Type} (l : List (String × α)) (k : String) (v : α) :
    (assocSet l k v).length ≤ l.length + 1 := by
  rw [assocSet]
  by_cases h : (mapGet l k).isSome
  · rw [if_pos h, List.length_map]
    omega
  · rw [if_neg h, List.length_append]
    simp

theorem mapGet_mem {α : Type} (l : List (String × α)) (k : String) (v : α)
    (h : mapGet l k = some v) : (k, v) ∈ l := by
  induction l with
  | nil => cases h
  | cons p ps ih =>
    obtain ⟨a, b⟩ := p
    rw [mapGet] at h
    by_cases hp : (a, b).1 = k
    · rw [if_pos hp] at h
      cases h
      have hak : a = k := hp
      subst hak
      exact List.mem_cons_self _ _
    · rw [if_neg hp] at h
      exact List.mem_cons_of_mem (a, b) (ih h)

theorem u32be_decode (L : Nat) (hL : L < 2 ^ 32) :
    L / 2 ^ 24 % 256 * 2 ^ 24 + L / 2 ^ 16 % 256 * 2 ^ 16 + L / 2 ^ 8 % 256 * 2 ^ 8 +
      L % 256 = L := by
  omega

theorem readLoopFrame_full (t L : Nat) (payload : List Nat)
    (hL : L < 2 ^ 32) (hp : payload.length = L) :
    readLoopFrame (t :: u32be L ++ payload) = .ok (t, payload, []) := by
  simp only [readLoopFrame, u32be, List.cons_append, List.nil_append, readU32be]
  rw [u32be_decode L hL]
  rw [if_neg (by omega), ← hp, List.take_length, List.drop_length]

theorem readTLV_cap (t L : Nat) (rest2 : List Nat) (hL32 : L < 2 ^ 32)
    (hL : L > maxMessageSize) :
    ∃ e, readTLVFromConn (t :: u32be L ++ rest2) = .error e := by
  simp only [readTLVFromConn, u32be, List.cons_append, List.nil_append, readU32be]
  rw [u32be_decode L hL32]
  by_cases ht : (t == TypePublicKeyExchange) = true
  · have h32 : (L != maxPublicKeySize) = true := by
      simp only [bne_iff_ne, ne_eq, maxPublicKeySize]
      rw [maxMessageSize] at hL
      omega
    rw [if_pos ht, if_pos h32]
    exact ⟨_, rfl⟩
  · rw [if_neg ht, if_pos hL]
    exact ⟨_, rfl⟩

theorem sendData_no_size_check (key data nonce : List Nat) (t : Nat)
    (hkey : key.length = 32) :
    isOkE (SendData (some key) t data nonce) = true := by
  have hKok : aesKeyOk key = true := by simp [aesKeyOk, hkey]
  simp only [SendData]
  by_cases ht : (t == TypePublicKeyExchange) = true
  · rw [if_pos ht]
    rfl
  · rw [if_neg ht, Encrypt, if_pos hKok]
    rfl

/-! ## Claim theorems -/

/-- C2 (counterexample): at payload length MAX_FRAME_BYTES + 1 the
frame-write operation SendData emits a frame rather than refusing, and the
message-loop frame read accepts a frame whose 32-bit length header is
MAX_FRAME_BYTES + 1, reading its whole payload instead of failing at the
header. -/
theorem frame_cap_counterexample :
    isOkE (SendData (some (List.replicate 32 0)) TypeText
        (List.replicate (maxMessageSize + 1) 0) (List.replicate 12 0)) = true ∧
    readLoopFrame (TypeText :: u32be (maxMessageSize + 1) ++
        List.replicate (maxMessageSize + 1) 7) =
      .ok (TypeText, List.replicate (maxMessageSize + 1) 7, []) := by
  constructor
  · exact sendData_no_size_check _ _ _ _ (by decide)
  · exact readLoopFrame_full TypeText (maxMessageSize + 1) _
      (by rw [maxMessageSize]; omega) (by simp)

/-- C2 (amended): the cap is enforced only by the handshake-path reader —
readTLVFromConn returns an error for any frame whose 32-bit length header
exceeds MAX_FRAME_BYTES, before reading the payload and whatever bytes
follow the header — while the frame-write operation SendData emits a frame
for a payload of every length without refusing. -/
theorem frame_cap_amended (t L : Nat) (rest2 key data nonce : List Nat)
    (hL32 : L < 2 ^ 32) (hL : L > maxMessageSize) (hkey : key.length = 32) :
    (∃ e, readTLVFromConn (t :: u32be L ++ rest2) = .error e) ∧
    isOkE (SendData (some key) TypeText data nonce) = true :=
  ⟨readTLV_cap t L rest2 hL32 hL, sendData_no_size_check key data nonce TypeText hkey⟩

/-- Witness for the amended C2 at a concrete oversized length header and
a concrete key and payload. -/
theorem frame_cap_amended_witness :
    (maxMessageSize + 1 < 2 ^ 32 ∧ maxMessageSize + 1 > maxMessageSize ∧
      (List.replicate 32 4 : List Nat).length = 32) ∧
    (∃ e, readTLVFromConn (0 :: u32be (maxMessageSize + 1) ++ [9]) = .error e) ∧
    isOkE (SendData (some (List.replicate 32 4)) TypeText [1, 2] [3]) = true := by
  have h1 : maxMessageSize + 1 < 2 ^ 32 := by rw [maxMessageSize]; omega
  have h2 : maxMessageSize + 1 > maxMessageSize := by omega
  have h3 : (List.replicate 32 4 : List Nat).length = 32 := by decide
  exact ⟨⟨h1, h2, h3⟩, frame_cap_amended 0 (maxMessageSize + 1) [9]
    (List.replicate 32 4) [1, 2] [3] h1 h2 h3⟩

/-- C3: for every plaintext P, 32-byte key K and 12-byte nonce drawn during
Encrypt, Decrypt(Encrypt(P, K), K) returns P, and for every 32-byte key K2
different from K, Decrypt(Encrypt(P, K), K2) returns an error rather than a
plaintext. -/
theorem encrypt_decrypt_roundtrip_and_wrong_key_fails
    (P K nonce blob : List Nat) (hK : K.length = 32) (hn : nonce.length = 12)
    (henc : Encrypt P K nonce = .ok blob) :
    Decrypt blob K = .ok P ∧
      ∀ K2 : List Nat, K2.length = 32 → K2 ≠ K → isOkE (Decrypt blob K2) = false := by
  have hKok : aesKeyOk K = true := by simp [aesKeyOk, hK]
  rw [Encrypt, if_pos hKok] at henc
  have hblob : blob = nonce ++ gcmSeal K nonce P := by
    cases henc
    rfl
  subst hblob
  have h1 := length_xorKeystream K nonce P 0
  have h2 := length_gcmTag K nonce (xorKeystream K nonce P 0) hK
  have hlen : (nonce ++ gcmSeal K nonce P).length = P.length + 44 := by
    simp [gcmSeal, hn]
    omega
  constructor
  · rw [Decrypt, if_pos hKok]
    rw [if_neg (by simp only [nonceSize]; omega)]
    simp only [nonceSize]
    rw [List.take_left' hn, List.drop_left' hn]
    exact gcmOpen_gcmSeal K nonce P hK
  · intro K2 hK2 hne
    have hK2ok : aesKeyOk K2 = true := by simp [aesKeyOk, hK2]
    rw [Decrypt, if_pos hK2ok]
    rw [if_neg (by simp only [nonceSize]; omega)]
    simp only [nonceSize]
    rw [List.take_left' hn, List.drop_left' hn]
    exact gcmOpen_gcmSeal_wrong_key K K2 nonce P hK hK2 hne

/-- Witness for C3 at a concrete plaintext, key, wrong key and nonce. -/
theorem encrypt_decrypt_roundtrip_and_wrong_key_fails_witness :
    (List.replicate 32 0 : List Nat).length = 32 ∧
    (List.replicate 12 0 : List Nat).length = 12 ∧
    Encrypt [104, 105] (List.replicate 32 0) (List.replicate 12 0) =
      .ok (List.replicate 12 0 ++
        gcmSeal (List.replicate 32 0) (List.replicate 12 0) [104, 105]) ∧
    Decrypt (List.replicate 12 0 ++
        gcmSeal (List.replicate 32 0) (List.replicate 12 0) [104, 105])
      (List.replicate 32 0) = .ok [104, 105] ∧
    isOkE (Decrypt (List.replicate 12 0 ++
        gcmSeal (List.replicate 32 0) (List.replicate 12 0) [104, 105])
      (1 :: List.replicate 31 0)) = false := by
  have h1 : (List.replicate 32 0 : List Nat).length = 32 := by decide
  have h2 : (List.replicate 12 0 : List Nat).length = 12 := by decide
  have h3 : Encrypt [104, 105] (List.replicate 32 0) (List.replicate 12 0) =
      .ok (List.replicate 12 0 ++
        gcmSeal (List.replicate 32 0) (List.replicate 12 0) [104, 105]) := by rfl
  have hmain := encrypt_decrypt_roundtrip_and_wrong_key_fails
    [104, 105] (List.replicate 32 0) (List.replicate 12 0) _ h1 h2 h3
  exact ⟨h1, h2, h3, hmain.1, hmain.2 (1 :: List.replicate 31 0) (by decide) (by decide)⟩

/-- C4: when the initiator and the responder each run PerformKeyExchange
over a channel delivering each party's written frame unmodified to the
other (the initiator reads the responder's written frame and vice versa),
both calls succeed, both return the same shared key, and that key equals
the Diffie-Hellman value x25519 of either party's private scalar with the
other party's public point. -/
theorem key_exchange_agreement (privA privB : List Nat) :
    PerformKeyExchange true privA (kexFrame (scalarBaseMult privB)) =
      .ok (encodeLE 32 (decodeLE privA * decodeLE (scalarBaseMult privB) % p25519),
        scalarBaseMult privA, scalarBaseMult privB, kexFrame (scalarBaseMult privA)) ∧
    PerformKeyExchange false privB (kexFrame (scalarBaseMult privA)) =
      .ok (encodeLE 32 (decodeLE privA * decodeLE (scalarBaseMult privB) % p25519),
        scalarBaseMult privB, scalarBaseMult privA, kexFrame (scalarBaseMult privB)) ∧
    x25519 privA (scalarBaseMult privB) =
      .ok (encodeLE 32 (decodeLE privA * decodeLE (scalarBaseMult privB) % p25519)) ∧
    x25519 privB (scalarBaseMult privA) =
      .ok (encodeLE 32 (decodeLE privA * decodeLE (scalarBaseMult privB) % p25519)) := by
  have hA := length_scalarBaseMult privA
  have hB := length_scalarBaseMult privB
  refine ⟨?_, ?_, rfl, ?_⟩
  · rw [PerformKeyExchange]
    simp only [if_true, readTLV_kexFrame _ hB, TypePublicKeyExchange, x25519, hB]
    norm_num
  · rw [PerformKeyExchange]
    simp only [Bool.false_eq_true, if_false, readTLV_kexFrame _ hA,
      TypePublicKeyExchange, x25519, hA]
    rw [dh_comm privA privB]
    norm_num
  · rw [x25519, dh_comm privA privB]

/-- C5: for every JSON line a member sends after admission, relayData
stamps the message's sender field with that member's server-minted id;
a message whose type is one of the six directed types is delivered exactly
to the member named by its recipient field (and to nobody when that field
is missing, not a string, or names no current member); every other message
is delivered exactly to the current members other than the sender. -/
theorem relay_routing (clients : List String) (senderId : String) (msg : JsonObj) :
    (∀ d ∈ routeMessage clients senderId msg,
        d.2 = stampSender msg senderId ∧
        mapGet d.2 "sender" = some (JVal.str senderId)) ∧
    (∀ t, mapGet msg "type" = some (JVal.str t) → t ∈ directedTypes →
      ∀ c, c ∈ (routeMessage clients senderId msg).map Prod.fst ↔
        (mapGet msg "recipient" = some (JVal.str c) ∧ c ∈ clients)) ∧
    ((∀ t, mapGet msg "type" = some (JVal.str t) → t ∉ directedTypes) →
      ∀ c, c ∈ (routeMessage clients senderId msg).map Prod.fst ↔
        (c ∈ clients ∧ c ≠ senderId)) := by
  have htype : mapGet (stampSender msg senderId) "type" = mapGet msg "type" :=
    mapGet_assocSet_ne msg "sender" "type" _ (by decide)
  have hrec : mapGet (stampSender msg senderId) "recipient" = mapGet msg "recipient" :=
    mapGet_assocSet_ne msg "sender" "recipient" _ (by decide)
  refine ⟨?_, ?_, ?_⟩
  · intro d hd
    rw [routeMessage] at hd
    by_cases hdir : isDirected (stampSender msg senderId) = true
    · rw [if_pos hdir] at hd
      cases hget : mapGet (stampSender msg senderId) "recipient" with
      | none =>
        rw [hget] at hd
        simp at hd
      | some jv =>
        rw [hget] at hd
        cases jv with
        | str r =>
          by_cases hc : clients.contains r = true
          · simp only [hc, if_true, List.mem_singleton] at hd
            subst hd
            exact ⟨rfl, mapGet_assocSet_self msg "sender" _⟩
          · simp [hc] at hd
            obtain ⟨hrc, rfl⟩ := hd
            exact ⟨rfl, mapGet_assocSet_self msg "sender" _⟩
        | bytes bs => simp at hd
        | other n => simp at hd
    · rw [if_neg hdir] at hd
      simp only [List.mem_map] at hd
      obtain ⟨c, hcmem, rfl⟩ := hd
      exact ⟨rfl, mapGet_assocSet_self msg "sender" _⟩
  · intro t ht htdir c
    have hdir : isDirected (stampSender msg senderId) = true := by
      rw [isDirected, htype, ht]
      exact List.elem_iff.mpr htdir
    rw [routeMessage, if_pos hdir, hrec]
    cases hget : mapGet msg "recipient" with
    | none => simp
    | some jv =>
      cases jv with
      | str r =>
        by_cases hc : clients.contains r = true
        · simp only [hc, if_true, List.map_cons, List.map_nil, List.mem_singleton]
          constructor
          · intro hcr
            subst hcr
            exact ⟨rfl, List.elem_iff.mp hc⟩
          · intro hp
            have h1 := Option.some.inj hp.1
            injection h1 with h2
            exact h2.symm
        · simp only [hc, if_false, Bool.false_eq_true, List.map_nil,
            List.not_mem_nil, false_iff, not_and]
          intro hsome
          have h1 := Option.some.inj hsome
          injection h1 with h2
          subst h2
          intro hmem
          exact hc (List.elem_iff.mpr hmem)
      | bytes bs => simp
      | other n => simp
  · intro hnd c
    have hdir : isDirected (stampSender msg senderId) = false := by
      rw [isDirected, htype]
      cases hty : mapGet msg "type" with
      | none => rfl
      | some jv =>
        cases jv with
        | str t =>
          have hnin := hnd t hty
          cases hcont : directedTypes.contains t
          · exact hcont
          · exact absurd (List.elem_iff.mp hcont) hnin
        | bytes bs => rfl
        | other n => rfl
    rw [routeMessage, if_neg (by rw [hdir]; exact Bool.false_ne_true)]
    simp [List.mem_map, List.mem_filter, bne_iff_ne]

/-- Witness for C5's inner implications: at a concrete directed message
the delivery goes to the named recipient, and at a concrete broadcast
message the delivery set excludes the sender. -/
theorem relay_routing_witness :
    ("b" ∈ (routeMessage ["a", "b"] "a"
        [("type", JVal.str "message"), ("recipient", JVal.str "b")]).map Prod.fst) ∧
    ("b" ∈ (routeMessage ["a", "b"] "a" [("type", JVal.str "hello")]).map Prod.fst) ∧
    ¬("a" ∈ (routeMessage ["a", "b"] "a" [("type", JVal.str "hello")]).map Prod.fst) := by
  have hb : ∀ t, mapGet [("type", JVal.str "hello")] "type" = some (JVal.str t) →
      t ∉ directedTypes := by
    intro t ht
    rw [show mapGet [("type", JVal.str "hello")] "type" = some (JVal.str "hello") from rfl]
      at ht
    injection ht with h
    injection h with h2
    subst h2
    decide
  have h1 := (relay_routing ["a", "b"] "a"
    [("type", JVal.str "message"), ("recipient", JVal.str "b")]).2.1
    "message" (by decide) (by decide) "b"
  have h2 := (relay_routing ["a", "b"] "a" [("type", JVal.str "hello")]).2.2 hb "b"
  have h3 := (relay_routing ["a", "b"] "a" [("type", JVal.str "hello")]).2.2 hb "a"
  refine ⟨h1.mpr (by decide), h2.mpr (by decide), fun hmem => ?_⟩
  exact (h3.mp hmem).2 rfl

/-- C9: after admission, a line that fails json.Unmarshal is dropped by the
per-client routing loop: it delivers nothing, does not end the loop (so the
member is not removed and no teardown runs), and the rest of the stream is
handled exactly as if the bad line had not arrived. -/
theorem invalid_json_line_skipped (clients : List String) (senderId : String)
    (before after : List InEvent) :
    relayDataRun clients senderId (before ++ InEvent.line none :: after) =
      relayDataRun clients senderId (before ++ after) := by
  induction before with
  | nil => rfl
  | cons e rest ih =>
    cases e with
    | line p =>
      cases p with
      | none =>
        simp only [List.cons_append, relayDataRun]
        exact ih
      | some m =>
        simp only [List.cons_append, relayDataRun, List.append_eq]
        rw [ih]
    | readErr => rfl

/-- C1: the relay does not enforce the --max-data-relayed cap: relayData
never consults the server's maxDataRelayed, so for every configured cap
(even 0) a session's stream is relayed in full and the loop keeps running.
Here a concrete two-member session relays both of the sender's messages
regardless of the cap the server was built with. -/
theorem relayed_bytes_cap_not_enforced (cap : Int) :
    relayData (NewRelayServer cap)
      { ID := "s", OwnerID := "A",
        Clients := [("A", { id := "A", nickname := "a", publicKey := [] }),
                    ("B", { id := "B", nickname := "b", publicKey := [] })],
        Banned := [] }
      "A"
      [InEvent.line (some [("type", JVal.str "message"), ("recipient", JVal.str "B"),
          ("ciphertext", JVal.bytes [7, 7, 7])]),
       InEvent.line (some [("type", JVal.str "message"), ("recipient", JVal.str "B"),
          ("ciphertext", JVal.bytes [7, 7, 7])])] =
      ([("B", [("type", JVal.str "message"), ("recipient", JVal.str "B"),
          ("ciphertext", JVal.bytes [7, 7, 7]), ("sender", JVal.str "A")]),
        ("B", [("type", JVal.str "message"), ("recipient", JVal.str "B"),
          ("ciphertext", JVal.bytes [7, 7, 7]), ("sender", JVal.str "A")])],
       false) := by
  rfl

/-- C6: a JOIN for a session that already holds 256 members is refused:
the server writes exactly the line "Error: Session is full\n", closes the
connection, starts no relay loop, and leaves the server state (hence the
session's member set) unchanged; and the 256-member cap is preserved by
every handled command. -/
theorem join_full_session_refused (s : RelayServer) (clientID genID : String)
    (msg : ClientMessage) (sess : Session)
    (hcmd : msg.Command = "JOIN")
    (hfound : mapGet s.sessions msg.SessionID = some sess)
    (hfull : sess.Clients.length ≥ 256) :
    handleCommand s clientID genID msg =
      { server := s, connWrites := [Wire.textLine "Error: Session is full\n"],
        memberNotifies := [], connClosed := true, startedRelay := false } ∧
    (∀ (s2 : RelayServer) (cid gid : String) (m2 : ClientMessage),
      (∀ p ∈ s2.sessions, p.2.Clients.length ≤ 256) →
      ∀ p ∈ (handleCommand s2 cid gid m2).server.sessions, p.2.Clients.length ≤ 256) := by
  constructor
  · simp only [handleCommand, hcmd, hfound]
    simp [hfull]
  · intro s2 cid gid m2 hbound p hp
    simp only [handleCommand] at hp
    by_cases hcreate : m2.Command = "CREATE"
    · rw [if_pos hcreate] at hp
      by_cases hex : m2.SessionID ≠ "" ∧ (mapGet s2.sessions m2.SessionID).isSome
      · rw [if_pos hex] at hp
        exact hbound p hp
      · rw [if_neg hex] at hp
        rcases mem_assocSet _ _ _ p hp with h | h
        · rw [h]
          simp
        · exact hbound p h
    · rw [if_neg hcreate] at hp
      by_cases hjoin : m2.Command = "JOIN"
      · rw [if_pos hjoin] at hp
        split at hp
        · exact hbound p hp
        · rename_i session hses
          split at hp
          · exact hbound p hp
          · rename_i hful
            split at hp
            · exact hbound p hp
            · rename_i hban
              rcases mem_assocSet _ _ _ p hp with h | h
              · have hmem := mapGet_mem s2.sessions m2.SessionID session hses
                have hb := hbound (m2.SessionID, session) hmem
                have hle := length_assocSet_le session.Clients cid
                  { id := cid, nickname := m2.Nickname, publicKey := m2.PublicKey }
                rw [h]
                show (assocSet session.Clients cid
                  { id := cid, nickname := m2.Nickname, publicKey := m2.PublicKey }).length ≤ 256
                simp only at hb
                omega
              · exact hbound p h
      · rw [if_neg hjoin] at hp
        exact hbound p hp

/-- Witness for C6: joining the concrete 256-member session is refused and
the server is unchanged. -/
theorem join_full_session_refused_witness :
    (({ Command := "JOIN", SessionID := "sid", Nickname := "n", PublicKey := [] } :
        ClientMessage).Command = "JOIN" ∧
      mapGet serverWithFullSession.sessions "sid" = some fullSession256 ∧
      fullSession256.Clients.length ≥ 256) ∧
    handleCommand serverWithFullSession "c" "g"
        { Command := "JOIN", SessionID := "sid", Nickname := "n", PublicKey := [] } =
      { server := serverWithFullSession,
        connWrites := [Wire.textLine "Error: Session is full\n"],
        memberNotifies := [], connClosed := true, startedRelay := false } := by
  have h1 : ({ Command := "JOIN", SessionID := "sid", Nickname := "n", PublicKey := [] } :
      ClientMessage).Command = "JOIN" := rfl
  have h2 : mapGet serverWithFullSession.sessions "sid" = some fullSession256 := rfl
  have h3 : fullSession256.Clients.length ≥ 256 := by
    simp [fullSession256]
  exact ⟨⟨h1, h2, h3⟩,
    (join_full_session_refused serverWithFullSession "c" "g" _ fullSession256 h1 h2 h3).1⟩

/-- C10: Decrypt is total — on every input it returns either a plaintext or
an error — and for every 32-byte key and every input shorter than the
12-byte nonce both Decrypt variants return the short-input error
immediately, without slicing or decrypting. -/
theorem decrypt_short_input_errors (blob K : List Nat)
    (hK : K.length = 32) (hshort : blob.length < 12) :
    Decrypt blob K = .error "ciphertext too short" ∧
    DecryptJot blob K = .error "unexpected EOF" ∧
    (∀ b k : List Nat, (∃ P, Decrypt b k = .ok P) ∨ (∃ e, Decrypt b k = .error e)) := by
  have hKok : aesKeyOk K = true := by simp [aesKeyOk, hK]
  refine ⟨?_, ?_, ?_⟩
  · rw [Decrypt, if_pos hKok, if_pos (by simp only [nonceSize]; omega)]
  · rw [DecryptJot, if_pos hKok, if_pos (by simp only [nonceSize]; omega)]
  · intro b k
    cases hd : Decrypt b k with
    | ok p => exact Or.inl ⟨p, rfl⟩
    | error e => exact Or.inr ⟨e, rfl⟩

/-- Witness for C10 at a concrete 3-byte input and 32-byte key. -/
theorem decrypt_short_input_errors_witness :
    (List.replicate 32 5 : List Nat).length = 32 ∧ ([1, 2, 3] : List Nat).length < 12 ∧
    Decrypt [1, 2, 3] (List.replicate 32 5) = .error "ciphertext too short" ∧
    DecryptJot [1, 2, 3] (List.replicate 32 5) = .error "unexpected EOF" := by
  have h := decrypt_short_input_errors [1, 2, 3] (List.replicate 32 5)
    (by decide) (by decide)
  exact ⟨by decide, by decide, h.1, h.2.1⟩

/-- C7: when the stat size of the offered file strictly exceeds the
configured limit, RequestSendFile emits exactly the OfferFailed event to
the sink and writes no FILE_OFFER message (nothing at all) to the
connection. -/
theorem oversized_offer_rejected (statR : StatResult) (sharedKey nonce : List Nat)
    (filePath recipientID : String) (maxFileSize : Int)
    (hsize : statR.size > maxFileSize) :
    RequestSendFile (.ok ()) (.ok statR) sharedKey nonce filePath maxFileSize
        recipientID =
      ([FTEvent.offerFailed statR.size maxFileSize], []) := by
  simp only [RequestSendFile]
  rw [if_pos hsize]

/-- Witness for C7 at a concrete 11-byte file against a 10-byte limit. -/
theorem oversized_offer_rejected_witness :
    ({ size := 11 } : StatResult).size > (10 : Int) ∧
    RequestSendFile (.ok ()) (.ok { size := 11 }) [] [] "big.bin" 10 "B" =
      ([FTEvent.offerFailed 11 10], []) := by
  exact ⟨by decide, oversized_offer_rejected { size := 11 } [] [] "big.bin" "B" 10
    (by decide)⟩

theorem dropWhile_ne_nil_of_mem {α : Type} (p : α → Bool) (l : List α) (a : α)
    (ha : a ∈ l) (hp : p a = false) : l.dropWhile p ≠ [] := by
  intro h
  have hall := List.dropWhile_eq_nil_iff.mp h a ha
  rw [hp] at hall
  cases hall

theorem dropWhile_head_not {α : Type} (p : α → Bool) :
    ∀ (l : List α) (x : α) (xs : List α), l.dropWhile p = x :: xs → p x = false := by
  intro l
  induction l with
  | nil =>
    intro x xs h
    cases h
  | cons a t ih =>
    intro x xs h
    rw [List.dropWhile_cons] at h
    by_cases hpa : p a = true
    · rw [if_pos hpa] at h
      exact ih x xs h
    · rw [if_neg hpa] at h
      cases h
      exact Bool.eq_false_iff.mpr hpa

theorem goFilepathBase_no_separator (path : List Char)
    (h : ∃ c ∈ path, c ≠ '/') : '/' ∉ goFilepathBase path := by
  obtain ⟨c, hc, hcne⟩ := h
  have hpathne : ¬path = [] := by
    intro he
    rw [he] at hc
    cases hc
  rw [goFilepathBase, if_neg hpathne]
  simp only [List.reverse_reverse]
  have hcrev : c ∈ path.reverse := List.mem_reverse.mpr hc
  have hcfalse : (c == '/') = false := beq_eq_false_iff_ne.mpr hcne
  have hne : path.reverse.dropWhile (fun c => c == '/') ≠ [] :=
    dropWhile_ne_nil_of_mem _ _ c hcrev hcfalse
  cases hx : path.reverse.dropWhile (fun c => c == '/') with
  | nil => exact absurd hx hne
  | cons x xs =>
    have hxne : (x == '/') = false := dropWhile_head_not _ _ x xs hx
    have hq : (x != '/') = true := by
      rw [bne, hxne]
      rfl
    rw [List.takeWhile_cons, if_pos hq]
    rw [if_neg (by simp)]
    intro hmem
    rw [List.mem_reverse] at hmem
    rcases List.mem_cons.mp hmem with heq | hmem2
    · rw [← heq] at hxne
      simp at hxne
    · have hq2 := List.mem_takeWhile_imp hmem2
      simp at hq2

/-- C8 (counterexample): an offered fileName consisting of the path
separator alone makes the receiver pass the path "/" — which contains a
path separator and names the root directory — to file creation, refuting
the universally quantified claim. -/
theorem incoming_file_path_counterexample :
    acceptOfferCreatePath
        { FileName := "/", FileSize := 1, OriginalPath := "", SenderID := "" } = "/" ∧
    '/' ∈ (acceptOfferCreatePath
        { FileName := "/", FileSize := 1, OriginalPath := "", SenderID := "" }).toList := by
  exact ⟨rfl, by decide⟩

/-- C8 (amended): the receiver always creates the incoming file at
filepath.Base of the offered fileName, and whenever the offered fileName
has at least one non-separator character that base contains no path
separator — the sole exception being an all-separator fileName, for which
filepath.Base yields the single separator "/". -/
theorem incoming_file_path_amended (offer : FileMetadata)
    (h : ∃ c ∈ offer.FileName.toList, c ≠ '/') :
    acceptOfferCreatePath offer = goFilepathBaseS offer.FileName ∧
    '/' ∉ (acceptOfferCreatePath offer).toList := by
  refine ⟨rfl, ?_⟩
  show '/' ∉ (goFilepathBaseS offer.FileName).toList
  rw [goFilepathBaseS]
  rw [show (String.mk (goFilepathBase offer.FileName.toList)).toList
      = goFilepathBase offer.FileName.toList from rfl]
  exact goFilepathBase_no_separator _ h

/-- Witness for the amended C8 at the traversal-shaped offered name
"../../secret": the created path is "secret", separator-free. -/
theorem incoming_file_path_amended_witness :
    (∃ c ∈ ("../../secret" : String).toList, c ≠ '/') ∧
    acceptOfferCreatePath
        { FileName := "../../secret", FileSize := 1, OriginalPath := "", SenderID := "" } =
      goFilepathBaseS "../../secret" ∧
    '/' ∉ (acceptOfferCreatePath
        { FileName := "../../secret", FileSize := 1, OriginalPath := "",
          SenderID := "" }).toList := by
  have h : ∃ c ∈ ("../../secret" : String).toList, c ≠ '/' := ⟨'s', by decide, by decide⟩
  have hmain := incoming_file_path_amended
    { FileName := "../../secret", FileSize := 1, OriginalPath := "", SenderID := "" } h
  exact ⟨h, hmain.1, hmain.2⟩

end Hemmelig
